import Mathlib

/- Verification of the `ec_utils` helper package, centred on the workflow-graph
modularisation routine `_modularise_snakemake_graph` of `ec_utils/modules.py`
(a shallow embedding over a list-based model of `networkx.DiGraph`), together
with the country-code helpers of `ec_utils/utils.py`. -/

/- Python exceptions that the modelled code can raise. -/
inductive PyErr where
  | valueError (msg : String)
  | networkXError (msg : String)
  | lookupError (msg : String)
  | assertionError (msg : String)
deriving DecidableEq

/- The node attributes that the modelled code reads or writes: the `label`,
`color` and `style` entries of a networkx node-attribute dict. -/
structure Attrs where
  label : Option String
  color : Option String
  style : Option String
deriving DecidableEq

instance : Inhabited Attrs := ⟨⟨none, none, none⟩⟩

/- A `networkx.DiGraph`: insertion-ordered node list (name with attribute
dict) and insertion-ordered directed-edge list.  A well-formed graph has no
repeated node name and no repeated edge, which networkx guarantees. -/
structure DiGraph where
  nodes : List (String × Attrs)
  edges : List (String × String)
deriving DecidableEq

def DiGraph.nodeNames (g : DiGraph) : List String := g.nodes.map Prod.fst

/- `networkx` helper used by `add_edge`: a node is silently created, with an
empty attribute dict, when an incident edge is added and it is absent. -/
def DiGraph.addNodeIfAbsent (g : DiGraph) (n : String) : DiGraph :=
  if n ∈ g.nodeNames then g else { g with nodes := g.nodes ++ [(n, ⟨none, none, none⟩)] }

/- `G.add_node(n, **attrs)`: updates the attributes when the node exists,
appends the node otherwise. -/
def DiGraph.add_node (g : DiGraph) (n : String) (a : Attrs) : DiGraph :=
  if n ∈ g.nodeNames then
    { g with nodes := g.nodes.map (fun nd => if nd.1 = n then (n, a) else nd) }
  else
    { g with nodes := g.nodes ++ [(n, a)] }

/- `G.add_edge(u, v)`: creates missing endpoint nodes, then appends the edge
unless it is already present (set semantics). -/
def DiGraph.add_edge (g : DiGraph) (u v : String) : DiGraph :=
  let g2 := (g.addNodeIfAbsent u).addNodeIfAbsent v
  if (u, v) ∈ g2.edges then g2 else { g2 with edges := g2.edges ++ [(u, v)] }

/- `G.remove_edge(u, v)`: removes the edge, raising `NetworkXError` when it is
not in the graph. -/
def DiGraph.remove_edge (g : DiGraph) (u v : String) : Except PyErr DiGraph :=
  if (u, v) ∈ g.edges then
    .ok { g with edges := g.edges.filter (fun x => decide (x ≠ (u, v))) }
  else
    .error (.networkXError ("The edge " ++ u ++ "-" ++ v ++ " is not in the graph."))

/- `G.remove_nodes_from(ns)`: removes the listed nodes and all incident edges,
silently ignoring nodes that are absent. -/
def DiGraph.remove_nodes_from (g : DiGraph) (ns : List String) : DiGraph :=
  { nodes := g.nodes.filter (fun nd => decide (nd.1 ∉ ns)),
    edges := g.edges.filter (fun x => decide (x.1 ∉ ns ∧ x.2 ∉ ns)) }

/- Python `value.replace('"', "")`: with a one-character pattern and an empty
replacement this removes every double-quote character of the string. -/
def cleanLabel (s : String) : String := ⟨s.data.filter (fun c => decide (c ≠ Char.ofNat 34))⟩

/- Python `value.startswith(prefix)`. -/
def pyStartsWith (s pre : String) : Bool := pre.data.isPrefixOf s.data

/- `nx.get_node_attributes(rulegraph, "label")`: the nodes that carry a
`label` attribute, paired with it, in node order. -/
def get_node_attributes_label (g : DiGraph) : List (String × String) :=
  g.nodes.filterMap (fun nd => nd.2.label.map (fun l => (nd.1, l)))

/- `labels = {key: value.replace('"', "") for key, value in labels.items()}`. -/
def cleanLabels (g : DiGraph) : List (String × String) :=
  (get_node_attributes_label g).map (fun kv => (kv.1, cleanLabel kv.2))

/- `module_nodes = set(key for key, value in labels.items() if value.startswith(prefix))`. -/
def moduleNodes (labels : List (String × String)) (pfx : String) : List String :=
  (labels.filter (fun kv => pyStartsWith kv.2 pfx)).map Prod.fst

/- `module_node_attrs = dict(label=prefix, color="0 0 0", style="diagonals")`. -/
def module_node_attrs (pfx : String) : Attrs := ⟨some pfx, some "0 0 0", some "diagonals"⟩

/- The body of `for edge in rulegraph.edges:` — one edge of the loop:
an edge wholly inside the module is removed, a module output is redirected to
leave the proxy, a module input is redirected to enter the proxy. -/
def processEdge (module_nodes : List String) (pfx : String) (mg : DiGraph)
    (e : String × String) : Except PyErr DiGraph :=
  if e.1 ∈ module_nodes ∧ e.2 ∈ module_nodes then
    mg.remove_edge e.1 e.2
  else if e.1 ∈ module_nodes ∧ e.2 ∉ module_nodes then
    .ok (mg.add_edge pfx e.2)
  else if e.1 ∉ module_nodes ∧ e.2 ∈ module_nodes then
    .ok (mg.add_edge e.1 pfx)
  else
    .ok mg

/- The whole edge loop of one prefix, over the listed edges (the source
iterates `rulegraph.edges`, the edges of the ORIGINAL input graph). -/
def foldEdges (module_nodes : List String) (pfx : String) :
    DiGraph → List (String × String) → Except PyErr DiGraph
  | mg, [] => .ok mg
  | mg, e :: es =>
    match processEdge module_nodes pfx mg e with
    | .ok mg1 => foldEdges module_nodes pfx mg1 es
    | .error err => .error err

/- One iteration of `for prefix in module_prefixes:`: add the proxy node,
compute the module's nodes from the (entry-time) labels, fail when there is
none, rewrite the edges, then drop the module's nodes. -/
def modulePass (labels : List (String × String)) (rulegraph : DiGraph)
    (mg : DiGraph) (pfx : String) : Except PyErr DiGraph :=
  let mg1 := mg.add_node pfx (module_node_attrs pfx)
  let module_nodes := moduleNodes labels pfx
  if module_nodes.isEmpty then
    .error (.valueError ("Prefix not found: " ++ pfx ++ "."))
  else
    match foldEdges module_nodes pfx mg1 rulegraph.edges with
    | .ok mg2 => .ok (mg2.remove_nodes_from module_nodes)
    | .error err => .error err

/- The loop over `module_prefixes`, threading the mutated copy. -/
def runPasses (labels : List (String × String)) (rulegraph : DiGraph) :
    DiGraph → List String → Except PyErr DiGraph
  | mg, [] => .ok mg
  | mg, pfx :: rest =>
    match modulePass labels rulegraph mg pfx with
    | .ok mg1 => runPasses labels rulegraph mg1 rest
    | .error err => .error err

/- `_modularise_snakemake_graph(rulegraph, module_prefixes)`: labels are
computed once from the input graph, the input is copied, and the copy is
mutated by one pass per prefix, in order. -/
def _modularise_snakemake_graph (rulegraph : DiGraph) (module_prefixes : List String) :
    Except PyErr DiGraph :=
  let labels := cleanLabels rulegraph
  let modulegraph := rulegraph
  runPasses labels rulegraph modulegraph module_prefixes

/- ### Concrete graphs used by the scenario theorems -/

/- The graph of the spec's worked scenario: A labelled `module_x.rule1`,
B labelled `module_x.rule2`, C labelled `other`, edges C→A and A→B. -/
def scenarioGraph : DiGraph :=
  ⟨[("A", ⟨some "module_x.rule1", none, none⟩), ("B", ⟨some "module_x.rule2", none, none⟩),
    ("C", ⟨some "other", none, none⟩)], [("C", "A"), ("A", "B")]⟩

/- Two singleton modules joined by one edge: A labelled `p1x`, B labelled
`p2x`, edge A→B.  Prefixes `p1` and `p2` each match exactly one node and no
node matches both, yet the groups are adjacent. -/
def twoModuleGraph : DiGraph :=
  ⟨[("A", ⟨some "p1x", none, none⟩), ("B", ⟨some "p2x", none, none⟩)], [("A", "B")]⟩

/- What the code returns on `twoModuleGraph` with prefixes `["p1", "p2"]`:
the removed node A is re-added (bare, with no attributes) by the second pass,
and the inter-module edge ends as A→p2 instead of p1→p2. -/
def twoModuleOut : DiGraph :=
  ⟨[("p1", module_node_attrs "p1"), ("p2", module_node_attrs "p2"), ("A", ⟨none, none, none⟩)],
   [("A", "p2")]⟩

/-- Claim C4 (confirmed): on the graph with nodes A `module_x.rule1`,
B `module_x.rule2`, C `other` and edges C→A, A→B, modularising with the single
prefix `module_x` returns exactly the nodes C and `module_x` and the single
edge C→`module_x` (the internal edge A→B is dropped). -/
theorem modularise_scenario_module_x :
    _modularise_snakemake_graph scenarioGraph ["module_x"] =
    .ok ⟨[("C", ⟨some "other", none, none⟩), ("module_x", module_node_attrs "module_x")],
         [("C", "module_x")]⟩ := rfl

/-- Claim C6 (confirmed): for every input graph, modularising with an empty
prefix list returns the (copied) input graph unchanged — equal as node list
and edge list, hence equal as node set and edge set. -/
theorem modularise_nil_identity (g : DiGraph) :
    _modularise_snakemake_graph g [] = .ok g := rfl

/-- Claim C1 (code bug): with prefixes `p1` and `p2`, each matching exactly
one node and no node matching both, the routine returns a graph that still
contains node A, whose cleaned label `p1x` matches the prefix `p1` — because
the edge loop reads `rulegraph.edges` (the input graph) and `add_edge`
re-adds the already-removed node A while rewriting the inter-module edge
A→B during the `p2` pass.  The claim's "no matched node remains" is the
evident intent (the code removes every `module_nodes` set it builds), so the
resurrection is a slip of the code, exhibited here at a concrete input. -/
theorem modularise_resurrects_module_node :
    moduleNodes (cleanLabels twoModuleGraph) "p1" = ["A"] ∧
    moduleNodes (cleanLabels twoModuleGraph) "p2" = ["B"] ∧
    _modularise_snakemake_graph twoModuleGraph ["p1", "p2"] = .ok twoModuleOut ∧
    "A" ∈ twoModuleOut.nodeNames ∧
    pyStartsWith (cleanLabel "p1x") "p1" = true :=
  ⟨rfl, rfl, rfl, by decide, rfl⟩

/-- Claim C2 (code bug): the edge-rewriting loop does NOT range over the
edges of the graph current at each pass: the source iterates
`rulegraph.edges`, the edges of the original input.  On `twoModuleGraph`
with prefixes `["p1", "p2"]` the current-graph reading would have the `p2`
pass see the redirected edge p1→B and emit the proxy-to-proxy edge p1→p2;
the code instead re-reads the original edge A→B and emits A→p2, re-adding
the removed node A, so the boundary-crossing edge of group `p1` is attached
to nothing at all and the one of group `p2` is attached to a non-proxy. -/
theorem modularise_iterates_input_edges :
    _modularise_snakemake_graph twoModuleGraph ["p1", "p2"] = .ok twoModuleOut ∧
    ("p1", "p2") ∉ twoModuleOut.edges ∧
    ("A", "p2") ∈ twoModuleOut.edges :=
  ⟨rfl, by decide, by decide⟩

/- ### Claim C3: the prefix-not-found error -/

/- A one-node graph whose node X is labelled `ab`: prefix `a` removes X, after
which no node of the current graph matches `ab`, but the label table is never
recomputed. -/
def staleLabelGraph : DiGraph := ⟨[("X", ⟨some "ab", none, none⟩)], []⟩

/- The state of the mutated copy after the `a` pass on `staleLabelGraph`. -/
def staleLabelMid : DiGraph := ⟨[("a", module_node_attrs "a")], []⟩

/-- Claim C3 (corrected), counterexample: on the one-node graph X labelled
`ab` with prefixes `["a", "ab"]`, when the prefix `ab` is reached the current
graph is `staleLabelMid`, none of whose nodes has a cleaned label starting
with `ab`; the claim as stated then requires the run to fail with
`Prefix not found: ab.` — but the run succeeds, because `module_nodes` is
computed from the entry-time labels of the input graph, in which X still
matches `ab`. -/
theorem modularise_stale_labels_counterexample :
    runPasses (cleanLabels staleLabelGraph) staleLabelGraph staleLabelGraph ["a"] =
      .ok staleLabelMid ∧
    (cleanLabels staleLabelMid).all (fun kv => !(pyStartsWith kv.2 "ab")) = true ∧
    _modularise_snakemake_graph staleLabelGraph ["a", "ab"] =
      .ok ⟨[("a", module_node_attrs "a"), ("ab", module_node_attrs "ab")], []⟩ :=
  ⟨rfl, rfl, rfl⟩

/- `runPasses` on a list that begins with an already-successful part
continues from that part's result. -/
theorem runPasses_append_of_ok (labels : List (String × String)) (rg : DiGraph) :
    ∀ (l1 : List String) {mg m : DiGraph} (l2 : List String),
      runPasses labels rg mg l1 = .ok m →
      runPasses labels rg mg (l1 ++ l2) = runPasses labels rg m l2
  | [], mg, m, l2, h => by
      simp only [runPasses] at h
      cases h
      rfl
  | pfx :: rest, mg, m, l2, h => by
      simp only [runPasses] at h ⊢
      cases hp : modulePass labels rg mg pfx with
      | ok mg1 =>
          rw [hp] at h
          simpa using runPasses_append_of_ok labels rg rest l2 h
      | error err => rw [hp] at h; cases h

/-- Claim C3 (corrected, amended): labels are computed once from the INPUT
graph, so the check is against the input graph's nodes, not the current
graph's; and the error reported is the one of the first unmatched prefix
reached.  Amended claim: if the passes for the prefixes before `pfx` complete
without error and no node of the input graph has a cleaned label starting
with `pfx`, then the whole modularisation fails with a `ValueError` whose
message is exactly `Prefix not found: {pfx}.`, whatever the prefixes after
`pfx` are — they are never processed. -/
theorem modularise_unmatched_fails (g : DiGraph) (l1 : List String) (m : DiGraph)
    (pfx : String) (l2 : List String)
    (h1 : runPasses (cleanLabels g) g g l1 = .ok m)
    (h2 : moduleNodes (cleanLabels g) pfx = []) :
    _modularise_snakemake_graph g (l1 ++ pfx :: l2) =
      .error (.valueError ("Prefix not found: " ++ pfx ++ ".")) := by
  unfold _modularise_snakemake_graph
  rw [runPasses_append_of_ok (cleanLabels g) g l1 (pfx :: l2) h1]
  simp [runPasses, modulePass, h2]

/-- Witness for the amended claim C3: on the one-node graph N1 labelled `aa`,
with prefix list `["aa", "zz", "ww"]`, the pass for `aa` completes, `zz`
matches no input node, and the run fails with exactly
`Prefix not found: zz.` — the trailing prefix `ww` is never processed. -/
theorem modularise_unmatched_fails_witness :
    _modularise_snakemake_graph ⟨[("N1", ⟨some "aa", none, none⟩)], []⟩ (["aa"] ++ "zz" :: ["ww"]) =
      .error (.valueError ("Prefix not found: " ++ "zz" ++ ".")) :=
  modularise_unmatched_fails ⟨[("N1", ⟨some "aa", none, none⟩)], []⟩ ["aa"]
    ⟨[("aa", module_node_attrs "aa")], []⟩ "zz" ["ww"] rfl rfl

/- ### Edge-membership lemmas for the graph operations -/

theorem edges_addNodeIfAbsent (g : DiGraph) (n : String) :
    (g.addNodeIfAbsent n).edges = g.edges := by
  unfold DiGraph.addNodeIfAbsent
  split <;> rfl

theorem edges_add_node (g : DiGraph) (n : String) (a : Attrs) :
    (g.add_node n a).edges = g.edges := by
  unfold DiGraph.add_node
  split <;> rfl

theorem mem_edges_add_edge {g : DiGraph} {u v : String} {x : String × String} :
    x ∈ (g.add_edge u v).edges ↔ x ∈ g.edges ∨ x = (u, v) := by
  simp only [DiGraph.add_edge]
  split
  · rename_i hm
    rw [edges_addNodeIfAbsent, edges_addNodeIfAbsent] at hm ⊢
    exact ⟨fun h => Or.inl h, fun h => h.elim id (fun hx => hx ▸ hm)⟩
  · show x ∈ ((g.addNodeIfAbsent u).addNodeIfAbsent v).edges ++ [(u, v)] ↔ _
    rw [edges_addNodeIfAbsent, edges_addNodeIfAbsent]
    simp [List.mem_append]

theorem remove_edge_ok_iff {g g2 : DiGraph} {u v : String}
    (h : g.remove_edge u v = .ok g2) (x : String × String) :
    x ∈ g2.edges ↔ x ∈ g.edges ∧ x ≠ (u, v) := by
  unfold DiGraph.remove_edge at h
  split at h
  · cases h
    simp [List.mem_filter]
  · cases h

theorem mem_edges_remove_nodes_from {g : DiGraph} {ns : List String} {x : String × String} :
    x ∈ (g.remove_nodes_from ns).edges ↔ x ∈ g.edges ∧ x.1 ∉ ns ∧ x.2 ∉ ns := by
  unfold DiGraph.remove_nodes_from
  simp [List.mem_filter]

/- Every edge of the result of one edge-loop step is an edge that was already
there or an edge with the current prefix as an endpoint. -/
theorem processEdge_ok_sub {mnodes : List String} {pfx : String} {mg mg2 : DiGraph}
    {e : String × String} (h : processEdge mnodes pfx mg e = .ok mg2) :
    ∀ x ∈ mg2.edges, x ∈ mg.edges ∨ x.1 = pfx ∨ x.2 = pfx := by
  intro x hx
  unfold processEdge at h
  split at h
  · exact Or.inl ((remove_edge_ok_iff h x).1 hx).1
  · split at h
    · cases h
      rcases mem_edges_add_edge.1 hx with h1 | rfl
      · exact Or.inl h1
      · exact Or.inr (Or.inl rfl)
    · split at h
      · cases h
        rcases mem_edges_add_edge.1 hx with h1 | rfl
        · exact Or.inl h1
        · exact Or.inr (Or.inr rfl)
      · cases h
        exact Or.inl hx

/- A successful cons step of the edge loop decomposes. -/
theorem foldEdges_cons_ok {mnodes : List String} {pfx : String} {mg r : DiGraph}
    {e : String × String} {es : List (String × String)}
    (h : foldEdges mnodes pfx mg (e :: es) = .ok r) :
    ∃ mg1, processEdge mnodes pfx mg e = .ok mg1 ∧ foldEdges mnodes pfx mg1 es = .ok r := by
  cases hpe : processEdge mnodes pfx mg e with
  | ok mg1 =>
      refine ⟨mg1, rfl, ?_⟩
      unfold foldEdges at h
      rwa [hpe] at h
  | error err =>
      unfold foldEdges at h
      rw [hpe] at h
      cases h

/- The whole edge loop only ever adds edges with the current prefix as an
endpoint. -/
theorem foldEdges_ok_sub {mnodes : List String} {pfx : String} :
    ∀ {es : List (String × String)} {mg r : DiGraph},
      foldEdges mnodes pfx mg es = .ok r →
      ∀ x ∈ r.edges, x ∈ mg.edges ∨ x.1 = pfx ∨ x.2 = pfx := by
  intro es
  induction es with
  | nil =>
      intro mg r h x hx
      unfold foldEdges at h
      cases h
      exact Or.inl hx
  | cons e es ih =>
      intro mg r h x hx
      rcases foldEdges_cons_ok h with ⟨mg1, hpe, hrest⟩
      rcases ih hrest x hx with h1 | h2
      · exact processEdge_ok_sub hpe x h1
      · exact Or.inr h2

/- A successful pass decomposes into its edge loop and the node removal. -/
theorem modulePass_ok_elim {labels : List (String × String)} {rg mg mg2 : DiGraph}
    {pfx : String} (h : modulePass labels rg mg pfx = .ok mg2) :
    ∃ r, foldEdges (moduleNodes labels pfx) pfx (mg.add_node pfx (module_node_attrs pfx))
          rg.edges = .ok r ∧
        mg2 = r.remove_nodes_from (moduleNodes labels pfx) := by
  simp only [modulePass] at h
  split at h
  · cases h
  · cases hfe : foldEdges (moduleNodes labels pfx) pfx
        (mg.add_node pfx (module_node_attrs pfx)) rg.edges with
    | ok r =>
        rw [hfe] at h
        cases h
        exact ⟨r, rfl, rfl⟩
    | error err => rw [hfe] at h; cases h

/- A pass removes every edge incident to its module. -/
theorem modulePass_ok_kill {labels : List (String × String)} {rg mg mg2 : DiGraph}
    {pfx : String} (h : modulePass labels rg mg pfx = .ok mg2)
    {x : String × String} (hx : x.1 ∈ moduleNodes labels pfx ∨ x.2 ∈ moduleNodes labels pfx) :
    x ∉ mg2.edges := by
  rcases modulePass_ok_elim h with ⟨r, _, rfl⟩
  intro hmem
  rcases mem_edges_remove_nodes_from.1 hmem with ⟨_, h1, h2⟩
  rcases hx with hx | hx
  · exact h1 hx
  · exact h2 hx

/- A pass never introduces an edge with both endpoints different from its
prefix: absence of such an edge is preserved. -/
theorem modulePass_ok_absent {labels : List (String × String)} {rg mg mg2 : DiGraph}
    {pfx : String} (h : modulePass labels rg mg pfx = .ok mg2)
    {x : String × String} (hab : x ∉ mg.edges) (h1 : x.1 ≠ pfx) (h2 : x.2 ≠ pfx) :
    x ∉ mg2.edges := by
  rcases modulePass_ok_elim h with ⟨r, hfe, rfl⟩
  intro hmem
  have hr := (mem_edges_remove_nodes_from.1 hmem).1
  rcases foldEdges_ok_sub hfe x hr with hin | hpx | hpx
  · rw [edges_add_node] at hin
    exact hab hin
  · exact h1 hpx
  · exact h2 hpx

/- Absence of an edge neither endpoint of which is a still-pending prefix is
preserved by the remaining passes. -/
theorem runPasses_ok_absent {labels : List (String × String)} {rg : DiGraph} :
    ∀ {ps : List String} {mg g2 : DiGraph},
      runPasses labels rg mg ps = .ok g2 →
      ∀ {x : String × String}, x ∉ mg.edges →
        (∀ q ∈ ps, x.1 ≠ q ∧ x.2 ≠ q) → x ∉ g2.edges := by
  intro ps
  induction ps with
  | nil =>
      intro mg g2 h x hab _
      unfold runPasses at h
      cases h
      exact hab
  | cons pfx rest ih =>
      intro mg g2 h x hab hq
      unfold runPasses at h
      cases hp : modulePass labels rg mg pfx with
      | ok mg1 =>
          rw [hp] at h
          have h1 := (hq pfx (List.mem_cons_self pfx rest)).1
          have h2 := (hq pfx (List.mem_cons_self pfx rest)).2
          exact ih h (modulePass_ok_absent hp hab h1 h2)
            (fun q hq2 => hq q (List.mem_cons_of_mem pfx hq2))
      | error err => rw [hp] at h; cases h

/- A successful run over `l1 ++ l2` passes through a successful state after
`l1`. -/
theorem runPasses_ok_split {labels : List (String × String)} {rg : DiGraph} :
    ∀ (l1 : List String) {l2 : List String} {mg g2 : DiGraph},
      runPasses labels rg mg (l1 ++ l2) = .ok g2 →
      ∃ m, runPasses labels rg mg l1 = .ok m ∧ runPasses labels rg m l2 = .ok g2
  | [], l2, mg, g2, h => ⟨mg, rfl, h⟩
  | pfx :: rest, l2, mg, g2, h => by
      rw [List.cons_append] at h
      unfold runPasses at h
      cases hp : modulePass labels rg mg pfx with
      | ok mg1 =>
          rw [hp] at h
          rcases runPasses_ok_split rest h with ⟨m, hm1, hm2⟩
          refine ⟨m, ?_, hm2⟩
          unfold runPasses
          rw [hp]
          exact hm1
      | error err => rw [hp] at h; cases h

/- Every node of a module is a node of the graph whose labels were read. -/
theorem mem_nodeNames_of_mem_moduleNodes {g : DiGraph} {pfx n : String}
    (h : n ∈ moduleNodes (cleanLabels g) pfx) : n ∈ g.nodeNames := by
  unfold moduleNodes at h
  rcases List.mem_map.1 h with ⟨kv, hkv, rfl⟩
  have hkv2 := (List.mem_filter.1 hkv).1
  unfold cleanLabels at hkv2
  rcases List.mem_map.1 hkv2 with ⟨kv0, hkv0, hEq⟩
  unfold get_node_attributes_label at hkv0
  rcases List.mem_filterMap.1 hkv0 with ⟨nd, hnd, hsome⟩
  cases hl : nd.2.label with
  | none => rw [hl] at hsome; cases hsome
  | some l =>
      rw [hl] at hsome
      cases hsome
      cases hEq
      exact List.mem_map.2 ⟨nd, hnd, rfl⟩

/-- Claim C5 (confirmed): for every input graph and every prefix sequence that
is valid in the spec's sense — every prefix matches at least one node, no node
matches two different prefixes, the prefixes are distinct, and (the caller
responsibility of spec §3) no prefix collides with an existing node
identifier — every edge both of whose endpoints belong to the same group is
absent from the returned graph: it is deleted by that group's pass and, the
prefixes being fresh names, never re-added by a later pass. -/
theorem modularise_internal_edges_absent (g : DiGraph) (module_prefixes : List String)
    (g2 : DiGraph)
    (hmatch : ∀ q ∈ module_prefixes, moduleNodes (cleanLabels g) q ≠ [])
    (hdisj : ∀ q ∈ module_prefixes, ∀ r ∈ module_prefixes,
      ∀ n ∈ moduleNodes (cleanLabels g) q, n ∈ moduleNodes (cleanLabels g) r → q = r)
    (hnodup : module_prefixes.Nodup)
    (hfresh : ∀ q ∈ module_prefixes, q ∉ g.nodeNames)
    (hok : _modularise_snakemake_graph g module_prefixes = .ok g2)
    (e : String × String) (he : e ∈ g.edges) (q : String) (hq : q ∈ module_prefixes)
    (h1 : e.1 ∈ moduleNodes (cleanLabels g) q) (h2 : e.2 ∈ moduleNodes (cleanLabels g) q) :
    e ∉ g2.edges := by
  unfold _modularise_snakemake_graph at hok
  rcases List.append_of_mem hq with ⟨l1, l2, rfl⟩
  rcases runPasses_ok_split l1 hok with ⟨m, hm1, hm2⟩
  unfold runPasses at hm2
  cases hp : modulePass (cleanLabels g) g m q with
  | ok m1 =>
      rw [hp] at hm2
      have habs : e ∉ m1.edges := modulePass_ok_kill hp (Or.inl h1)
      refine runPasses_ok_absent hm2 habs ?_
      intro r hr
      have hrP : r ∈ l1 ++ q :: l2 :=
        List.mem_append_right l1 (List.mem_cons_of_mem q hr)
      have hfr := hfresh r hrP
      constructor
      · intro hcontra
        exact hfr (hcontra ▸ mem_nodeNames_of_mem_moduleNodes h1)
      · intro hcontra
        exact hfr (hcontra ▸ mem_nodeNames_of_mem_moduleNodes h2)
  | error err => rw [hp] at hm2; cases hm2

/-- Witness for claim C5: on the spec's scenario graph the internal edge A→B
of group `module_x` is absent from the output graph. -/
theorem modularise_internal_edges_absent_witness :
    ("A", "B") ∉
      (⟨[("C", ⟨some "other", none, none⟩), ("module_x", module_node_attrs "module_x")],
        [("C", "module_x")]⟩ : DiGraph).edges :=
  modularise_internal_edges_absent scenarioGraph ["module_x"] _
    (by decide) (by decide) (by decide) (by decide) rfl
    ("A", "B") (by decide) "module_x" (by decide) (by decide) (by decide)

/- ### Claim C7: the input graph object is never mutated -/

/- State-passing model of the two graph objects the source manipulates: the
caller's `rulegraph` object and the working copy `modulegraph` created by
`rulegraph.copy()`.  Each translated statement rewrites the component that
the source statement names, and the pair also records the state of both
objects at the moment an exception propagates.  The edge loop below iterates
`rulegraph.edges` and threads the `rulegraph` component through every step,
so a mutation of the input object, had the source performed one, would be
visible in the first component. -/
def heapFoldEdges (module_nodes : List String) (pfx : String) :
    DiGraph → DiGraph → List (String × String) → (DiGraph × DiGraph) × Except PyErr Unit
  | rg, mg, [] => ((rg, mg), .ok ())
  | rg, mg, e :: es =>
    match processEdge module_nodes pfx mg e with
    | .ok mg1 => heapFoldEdges module_nodes pfx rg mg1 es
    | .error err => ((rg, mg), .error err)

/- One prefix pass over the two-object heap. -/
def heapPass (labels : List (String × String)) (rg mg : DiGraph) (pfx : String) :
    (DiGraph × DiGraph) × Except PyErr Unit :=
  let mg1 := mg.add_node pfx (module_node_attrs pfx)
  let module_nodes := moduleNodes labels pfx
  if module_nodes.isEmpty then
    ((rg, mg1), .error (.valueError ("Prefix not found: " ++ pfx ++ ".")))
  else
    match heapFoldEdges module_nodes pfx rg mg1 rg.edges with
    | ((rg2, mg2), .ok _) => ((rg2, mg2.remove_nodes_from module_nodes), .ok ())
    | (h2, .error err) => (h2, .error err)

/- The prefix loop over the two-object heap; the pass's resulting rulegraph
state is fed to the next pass. -/
def heapPasses (labels : List (String × String)) :
    DiGraph → DiGraph → List String → (DiGraph × DiGraph) × Except PyErr Unit
  | rg, mg, [] => ((rg, mg), .ok ())
  | rg, mg, pfx :: rest =>
    match heapPass labels rg mg pfx with
    | ((rg1, mg1), .ok _) => heapPasses labels rg1 mg1 rest
    | (h1, .error err) => (h1, .error err)

/- `_modularise_snakemake_graph` over the two-object heap: the copy is the
initial state of the second component. -/
def modulariseHeap (rulegraph : DiGraph) (module_prefixes : List String) :
    (DiGraph × DiGraph) × Except PyErr Unit :=
  heapPasses (cleanLabels rulegraph) rulegraph rulegraph module_prefixes

theorem heapFoldEdges_fst (module_nodes : List String) (pfx : String) :
    ∀ (es : List (String × String)) (rg mg : DiGraph),
      ((heapFoldEdges module_nodes pfx rg mg es).1).1 = rg
  | [], _, _ => rfl
  | e :: es, rg, mg => by
      unfold heapFoldEdges
      split
      · exact heapFoldEdges_fst module_nodes pfx es rg _
      · rfl

theorem heapPass_fst (labels : List (String × String)) (rg mg : DiGraph) (pfx : String) :
    ((heapPass labels rg mg pfx).1).1 = rg := by
  simp only [heapPass]
  split
  · rfl
  · split
    · rename_i rg2 mg2 u heq
      have h1 := heapFoldEdges_fst (moduleNodes labels pfx) pfx rg.edges rg
        (mg.add_node pfx (module_node_attrs pfx))
      rw [heq] at h1
      exact h1
    · rename_i h2 err heq
      have h1 := heapFoldEdges_fst (moduleNodes labels pfx) pfx rg.edges rg
        (mg.add_node pfx (module_node_attrs pfx))
      rw [heq] at h1
      exact h1

theorem heapPasses_fst (labels : List (String × String)) :
    ∀ (ps : List String) (rg mg : DiGraph), ((heapPasses labels rg mg ps).1).1 = rg
  | [], _, _ => rfl
  | pfx :: rest, rg, mg => by
      unfold heapPasses
      split
      · rename_i rg1 mg1 u heq
        have h2 := heapPass_fst labels rg mg pfx
        rw [heq] at h2
        rw [heapPasses_fst labels rest rg1 mg1]
        exact h2
      · rename_i h1 err heq
        have h2 := heapPass_fst labels rg mg pfx
        rw [heq] at h2
        exact h2

/- The heap model agrees with the pure model: a successful pure run is
exactly a heap run that returns the same modulegraph and leaves the
rulegraph component untouched. -/
theorem heapFoldEdges_agrees (module_nodes : List String) (pfx : String) :
    ∀ (es : List (String × String)) (rg mg r : DiGraph),
      foldEdges module_nodes pfx mg es = .ok r →
      heapFoldEdges module_nodes pfx rg mg es = ((rg, r), .ok ())
  | [], rg, mg, r, h => by
      unfold foldEdges at h
      cases h
      rfl
  | e :: es, rg, mg, r, h => by
      rcases foldEdges_cons_ok h with ⟨mg1, hpe, hrest⟩
      unfold heapFoldEdges
      rw [hpe]
      exact heapFoldEdges_agrees module_nodes pfx es rg mg1 r hrest

theorem heapPass_agrees (labels : List (String × String)) (rg mg mg2 : DiGraph) (pfx : String)
    (h : modulePass labels rg mg pfx = .ok mg2) :
    heapPass labels rg mg pfx = ((rg, mg2), .ok ()) := by
  simp only [modulePass] at h
  simp only [heapPass]
  by_cases hemp : (moduleNodes labels pfx).isEmpty
  · rw [if_pos hemp] at h
    cases h
  · rw [if_neg hemp] at h
    rw [if_neg hemp]
    cases hfe : foldEdges (moduleNodes labels pfx) pfx
        (mg.add_node pfx (module_node_attrs pfx)) rg.edges with
    | ok r =>
        rw [hfe] at h
        cases h
        rw [heapFoldEdges_agrees (moduleNodes labels pfx) pfx rg.edges rg
          (mg.add_node pfx (module_node_attrs pfx)) r hfe]
    | error err => rw [hfe] at h; cases h

theorem heapPasses_agrees (labels : List (String × String)) (rg : DiGraph) :
    ∀ (ps : List String) (mg r : DiGraph),
      runPasses labels rg mg ps = .ok r →
      heapPasses labels rg mg ps = ((rg, r), .ok ())
  | [], mg, r, h => by
      unfold runPasses at h
      cases h
      rfl
  | pfx :: rest, mg, r, h => by
      unfold runPasses at h
      cases hp : modulePass labels rg mg pfx with
      | ok mg1 =>
          rw [hp] at h
          unfold heapPasses
          rw [heapPass_agrees labels rg mg mg1 pfx hp]
          exact heapPasses_agrees labels rg rest mg1 r h
      | error err => rw [hp] at h; cases h

theorem modulariseHeap_agrees (g r : DiGraph) (module_prefixes : List String)
    (h : _modularise_snakemake_graph g module_prefixes = .ok r) :
    modulariseHeap g module_prefixes = ((g, r), .ok ()) :=
  heapPasses_agrees (cleanLabels g) g module_prefixes g r h

/-- Claim C7 (confirmed): for every input graph and every prefix list —
whether the call succeeds or raises — the caller's input-graph object, the
first component of the two-object heap, is returned exactly as it was
passed in: every mutating statement of the source targets the copy
`modulegraph`, never `rulegraph`. -/
theorem modularise_input_unchanged (g : DiGraph) (module_prefixes : List String) :
    ((modulariseHeap g module_prefixes).1).1 = g :=
  heapPasses_fst (cleanLabels g) module_prefixes g g

/- ### Claim C8: the `.dot` extension gate of the entry operation -/

/- Python `str(path).endswith(".dot")`. -/
def pyEndsWith (s suf : String) : Bool := suf.data.isSuffixOf s.data

/- The `prefixes: str | list[str]` argument of the entry operation. -/
inductive StrOrList where
  | str (s : String)
  | list (l : List String)

/- `write_snakemake_modulegraph_png(snakemake_dotfile, output_path, prefixes)`:
the extension check comes first; a single string becomes a one-element list;
the dot file is parsed (modelled by the abstract parser `read_dot`, a
parameter, since file I/O is outside the embedding); the core runs; the
result and the output path form the render request handed to the PNG sink. -/
def write_snakemake_modulegraph_png (read_dot : String → DiGraph)
    (snakemake_dotfile : String) (output_path : String) (prefixes : StrOrList) :
    Except PyErr (DiGraph × String) :=
  if !(pyEndsWith snakemake_dotfile ".dot") then
    .error (.valueError "Only .dot files can be processed.")
  else
    let ps := match prefixes with
      | .str s => [s]
      | .list l => l
    let rulegraph := read_dot snakemake_dotfile
    match _modularise_snakemake_graph rulegraph ps with
    | .ok modulegraph => .ok (modulegraph, output_path)
    | .error err => .error err

/-- Claim C8 (confirmed): for every file path whose string form does not end
in `.dot`, the entry operation fails with exactly
`Only .dot files can be processed.` — and it does so for EVERY parser
`read_dot`, i.e. before (and independently of) any parsing of the file, and
therefore before the core modularisation runs. -/
theorem write_png_rejects_non_dot (read_dot : String → DiGraph)
    (snakemake_dotfile output_path : String) (prefixes : StrOrList)
    (h : pyEndsWith snakemake_dotfile ".dot" = false) :
    write_snakemake_modulegraph_png read_dot snakemake_dotfile output_path prefixes =
      .error (.valueError "Only .dot files can be processed.") := by
  unfold write_snakemake_modulegraph_png
  rw [h]
  rfl

/-- Witness for claim C8: `some_file.txt` is rejected whatever the parser
would have returned. -/
theorem write_png_rejects_non_dot_witness :
    write_snakemake_modulegraph_png (fun _ => ⟨[], []⟩) "some_file.txt" "out.png"
      (.str "module_biofuels") =
      .error (.valueError "Only .dot files can be processed.") :=
  write_png_rejects_non_dot (fun _ => ⟨[], []⟩) "some_file.txt" "out.png"
    (.str "module_biofuels") rfl

/- ### The country-code helpers of `ec_utils/utils.py` -/

/- A `pycountry` country record, restricted to the fields the code reads. -/
structure CountryRec where
  alpha_2 : String
  alpha_3 : String
  cname : String
deriving DecidableEq

/- Python `str.lower()` (ASCII, which covers every code the code handles). -/
def pyLower (s : String) : String := ⟨s.data.map Char.toLower⟩

/- Modelled from the spec: the third-party `pycountry.countries` database is
not part of this repository; the records here are the countries that the
spec's expected outputs pin down (France, Greece, the United Kingdom and —
for the `bh` quirk — Bosnia and Herzegovina), with their standard ISO 3166
alpha-2 and alpha-3 codes and names. -/
def countriesDB : List CountryRec :=
  [⟨"FR", "FRA", "France"⟩, ⟨"GR", "GRC", "Greece"⟩,
   ⟨"GB", "GBR", "United Kingdom"⟩, ⟨"BA", "BIH", "Bosnia and Herzegovina"⟩]

/- Modelled from the spec: `pycountry.countries.lookup(value)` — a
case-insensitive lookup of a record by alpha-2 code, alpha-3 code or name,
raising `LookupError` when nothing matches. -/
def pycountry_lookup (query : String) : Except PyErr CountryRec :=
  match countriesDB.find? (fun c =>
      decide (pyLower c.alpha_2 = pyLower query) ||
      decide (pyLower c.alpha_3 = pyLower query) ||
      decide (pyLower c.cname = pyLower query)) with
  | some c => .ok c
  | none => .error (.lookupError ("Could not find a record for " ++ query))

/- The `output` literal of `convert_country_code`:
`Literal["alpha2", "alpha2_eu", "alpha3", "name"]`. -/
inductive OutputFormat where
  | alpha2
  | alpha2_eu
  | alpha3
  | fullname
deriving DecidableEq

/- `convert_country_code(input_country, output)`: the non-ISO special cases
`el` (Greece), `uk` (United Kingdom) and the biofuels-dataset quirk `bh`
(Bosnia) are remapped first, then the pycountry record is looked up and the
requested output convention extracted, with `GB`→`UK` and `GR`→`EL` for the
EU-style alpha-2 output. -/
def convert_country_code (input_country : String) (output : OutputFormat) :
    Except PyErr String :=
  let input_country :=
    if pyLower input_country = "el" then "gr"
    else if pyLower input_country = "uk" then "gb"
    else if pyLower input_country = "bh" then "ba"
    else input_country
  match pycountry_lookup input_country with
  | .error err => .error err
  | .ok lookup =>
    match output with
    | .alpha2 => .ok lookup.alpha_2
    | .alpha2_eu =>
        let alpha2 := lookup.alpha_2
        if alpha2 = "GB" then .ok "UK"
        else if alpha2 = "GR" then .ok "EL"
        else .ok alpha2
    | .alpha3 => .ok lookup.alpha_3
    | .fullname => .ok lookup.cname

/- `eu_country_code_to_iso3(eu_country_code)`: the assert comes first, then
the conversion to ISO 3166 alpha-3. -/
def eu_country_code_to_iso3 (eu_country_code : String) : Except PyErr String :=
  if !(eu_country_code.length = 2 : Bool) then
    .error (.assertionError
      ("EU country codes are of length 2, yours is \x27" ++ eu_country_code ++ "\x27."))
  else
    convert_country_code eu_country_code .alpha3

/-- Claim C9 (confirmed, against the spec-modelled pycountry database):
`convert_country_code("FR", "alpha3")` returns `FRA`; `el` is remapped to
Greece, so its alpha-3 conversion equals `gr`'s; and `GB` under the
`alpha2_eu` convention becomes `UK`. -/
theorem convert_country_code_examples :
    convert_country_code "FR" .alpha3 = .ok "FRA" ∧
    convert_country_code "el" .alpha3 = convert_country_code "gr" .alpha3 ∧
    convert_country_code "GB" .alpha2_eu = .ok "UK" :=
  ⟨rfl, rfl, rfl⟩

/-- Claim C10 (confirmed): for every input string, `eu_country_code_to_iso3`
returns `convert_country_code(input, "alpha3")` exactly when the input has
length 2, and otherwise fails — before any country lookup — with an
assertion error whose message quotes the offending input verbatim. -/
theorem eu_country_code_assert_spec (s : String) :
    eu_country_code_to_iso3 s =
      if s.length = 2 then convert_country_code s .alpha3
      else .error (.assertionError
        ("EU country codes are of length 2, yours is \x27" ++ s ++ "\x27.")) := by
  unfold eu_country_code_to_iso3
  by_cases h : s.length = 2 <;> simp [h]
